import Mathlib

/-!
Shallow embedding of the offline-first synchronization engine of the
kidscard repository (src/hooks/useFlashcardSync.ts, src/hooks/useOfflineStorage.ts,
src/hooks/useFlashcards.ts) together with proofs about the embedded code.

Conventions of the embedding:
* TypeScript optional fields become Option.
* Timestamps (Date.now values) are Nat.
* A JavaScript Map is modelled as an association list with the Map's
  insertion semantics: setting an existing key replaces it in place,
  setting a fresh key appends; lookup finds the unique entry.
* Mutable refs and storage become explicit state records; Date.now and
  the network become parameters of the embedded function.
-/

namespace KidsCard

/-- Sync status of a local entity, from types/flashcard.ts. -/
inductive SyncStatus where
  | synced
  | pending
  | conflict
deriving DecidableEq, Repr

/-- Category record, from types/flashcard.ts (optional fields are Option). -/
structure Category where
  id : String
  name : String
  icon : String
  color : String
  order : Option Nat
  createdAt : Option Nat
  updatedAt : Option Nat
  syncStatus : Option SyncStatus
deriving DecidableEq, Repr

/-- Flashcard record, from types/flashcard.ts. -/
structure Flashcard where
  id : String
  word : String
  imageUrl : String
  categoryId : String
  createdAt : Option Nat
  updatedAt : Option Nat
  syncStatus : Option SyncStatus
deriving DecidableEq, Repr

/-- JavaScript Map.set on an association list: replace the (unique) existing
entry in place, or append a fresh one. -/
def mapSet {V : Type} : List (String × V) → String → V → List (String × V)
  | [], k, v => [(k, v)]
  | (k', v') :: rest, k, v =>
    if k' = k then (k, v) :: rest else (k', v') :: mapSet rest k v

/-- JavaScript Map.get on an association list. -/
def mapGet {V : Type} : List (String × V) → String → Option V
  | [], _ => none
  | (k', v') :: rest, k => if k' = k then some v' else mapGet rest k

/-- Typeclass for entities with an id and an optional updatedAt timestamp,
matching the TypeScript generic bound of mergeData. -/
class SyncEntity (T : Type) where
  entityId : T → String
  entityUpdatedAt : T → Option Nat

instance : SyncEntity Category where
  entityId := Category.id
  entityUpdatedAt := Category.updatedAt

instance : SyncEntity Flashcard where
  entityId := Flashcard.id
  entityUpdatedAt := Flashcard.updatedAt

open SyncEntity

/-- The updatedAt of an entity with 0 for a missing value (JS: updatedAt or 0). -/
def updD {T : Type} [SyncEntity T] (x : T) : Nat :=
  (entityUpdatedAt x).getD 0

/-- Insert a list of items into the map keyed by id, later items overriding
earlier ones (the first loop of mergeData). -/
def insertAll {T : Type} [SyncEntity T] (m : List (String × T)) (items : List T) :
    List (String × T) :=
  items.foldl (fun m item => mapSet m (entityId item) item) m

/-- One step of the remote loop of mergeData: a new remote id is added, an
existing one is replaced only when the remote updatedAt is strictly larger. -/
def mergeStep {T : Type} [SyncEntity T] (m : List (String × T)) (remoteItem : T) :
    List (String × T) :=
  match mapGet m (entityId remoteItem) with
  | none => mapSet m (entityId remoteItem) remoteItem
  | some localItem =>
    if updD remoteItem > updD localItem then
      mapSet m (entityId remoteItem) remoteItem
    else
      m

/-- The remote loop of mergeData. -/
def mergeAll {T : Type} [SyncEntity T] (m : List (String × T)) (remoteItems : List T) :
    List (String × T) :=
  remoteItems.foldl mergeStep m

/-- mergeData from useFlashcardSync.ts: union by id into a Map, remote
entries winning only on strictly larger updatedAt, then the Map's values. -/
def mergeData {T : Type} [SyncEntity T] (localItems remoteItems : List T) : List T :=
  (mergeAll (insertAll [] localItems) remoteItems).map (·.2)

/-- First entry of a list with the given id (how a collection is observed). -/
def findById {T : Type} [SyncEntity T] : List T → String → Option T
  | [], _ => none
  | x :: rest, k => if entityId x = k then some x else findById rest k

/-- The ids of a list of entities. -/
def idsOf {T : Type} [SyncEntity T] (l : List T) : List String :=
  l.map entityId

/-- The keys of an association list. -/
def mapKeys {V : Type} (m : List (String × V)) : List String :=
  m.map (·.1)

/-- Every entry of the map is keyed by the id of its value (an invariant of
the maps built by mergeData). -/
def keyedMap {T : Type} [SyncEntity T] (m : List (String × T)) : Prop :=
  ∀ p ∈ m, p.1 = entityId p.2

/-- Whether the pattern is an initial segment of the character list. -/
def charsLeadWith : List Char → List Char → Bool
  | _, [] => true
  | [], _ :: _ => false
  | c :: cs, p :: ps => c = p && charsLeadWith cs ps

/-- Whether the pattern occurs contiguously in the character list. -/
def charsInclude : List Char → List Char → Bool
  | [], pat => charsLeadWith [] pat
  | hay@(_ :: rest), pat => charsLeadWith hay pat || charsInclude rest pat

/-- JavaScript String.includes. -/
def strIncludes (hay pat : String) : Bool :=
  charsInclude hay.data pat.data

/-- JavaScript String.toLowerCase, character by character. -/
def toLowerStr (s : String) : String :=
  String.mk (s.data.map Char.toLower)

/-- JavaScript String.trim: drop whitespace from both ends. -/
def trimStr (s : String) : String :=
  String.mk (((s.data.dropWhile Char.isWhitespace).reverse.dropWhile
    Char.isWhitespace).reverse)

/-- normalizeCategoryName from useFlashcardSync.ts: trim then lowercase. -/
def normalizeCategoryName (name : String) : String :=
  toLowerStr (trimStr name)

/-- Score of a category in pickPreferredCategory: 1 when synced, else 0. -/
def syncedScore (c : Category) : Nat :=
  if c.syncStatus = some SyncStatus.synced then 1 else 0

/-- pickPreferredCategory from useFlashcardSync.ts: prefer the synced member,
then the strictly larger updatedAt, ties keep the current holder. -/
def pickPreferredCategory (current incoming : Category) : Category :=
  if syncedScore incoming ≠ syncedScore current then
    if syncedScore incoming > syncedScore current then incoming else current
  else
    let currentUpdated := current.updatedAt.getD 0
    let incomingUpdated := incoming.updatedAt.getD 0
    if incomingUpdated ≠ currentUpdated then
      if incomingUpdated > currentUpdated then incoming else current
    else current

/-- Result record of dedupeCategoriesByName. -/
structure DedupeResult where
  categories : List Category
  idRemap : List (String × String)
deriving DecidableEq, Repr

/-- One loop iteration of dedupeCategoriesByName over the running pair of
canonical-by-key map and idRemap map. -/
def dedupeStep (acc : List (String × Category) × List (String × String))
    (category : Category) : List (String × Category) × List (String × String) :=
  let key := normalizeCategoryName category.name
  match mapGet acc.1 key with
  | none => (mapSet acc.1 key category, acc.2)
  | some existing =>
    let preferred := pickPreferredCategory existing category
    let replaced := preferred.id ≠ existing.id
    let canonicalByKey := mapSet acc.1 key preferred
    let idRemap := if replaced then mapSet acc.2 existing.id preferred.id else acc.2
    (canonicalByKey, mapSet idRemap category.id preferred.id)

/-- dedupeCategoriesByName from useFlashcardSync.ts. -/
def dedupeCategoriesByName (categories : List Category) : DedupeResult :=
  let acc := categories.foldl dedupeStep ([], [])
  { categories := acc.1.map (·.2), idRemap := acc.2 }

/-- remapCardsCategoryIds from useFlashcardSync.ts; the parameter now stands
for the Date.now value observed while rewriting.  An empty mapped id is a
falsy string in the source and leaves the card untouched. -/
def remapCardsCategoryIds (cards : List Flashcard) (idRemap : List (String × String))
    (now : Nat) : List Flashcard :=
  if idRemap.length = 0 then cards
  else
    cards.map fun card =>
      match mapGet idRemap card.categoryId with
      | none => card
      | some mappedCategoryId =>
        if mappedCategoryId = "" ∨ mappedCategoryId = card.categoryId then card
        else
          { card with
            categoryId := mappedCategoryId,
            updatedAt := some now,
            syncStatus :=
              if card.syncStatus = some SyncStatus.synced then some SyncStatus.pending
              else some (card.syncStatus.getD SyncStatus.pending) }

/-- Feature flag from useFlashcardSync.ts (enabled in the source). -/
def ENABLE_CLOUD_SYNC : Bool := true

/-- Upload batch size from useFlashcardSync.ts. -/
def SYNC_BATCH_SIZE : Nat := 50

/-- Cooldown duration from useFlashcardSync.ts. -/
def TRANSIENT_FAILURE_COOLDOWN_MS : Nat := 30000

/-- The substrings checked by isTransientNetworkError, in source order. -/
def transientSignatures : List String :=
  ["networkerror", "failed to fetch", "cors", "http/3 525", "status code: 525",
   "fetch resource", "statement timeout", "canceling statement",
   "code: \"57014\"", "57014", "aborterror", "operation was aborted"]

/-- isTransientNetworkError from useFlashcardSync.ts: lowercase the message
and test the fixed signature substrings (the source's chain of includes). -/
def isTransientNetworkError (message : String) : Bool :=
  let normalized := toLowerStr message
  transientSignatures.any (fun pat => strIncludes normalized pat)

/-- The user-facing message for a transient failure. -/
def tempUnavailableMsg : String :=
  "Cloud sync temporarily unavailable. Changes are saved locally."

/-- normalizeSyncErrorMessage from useFlashcardSync.ts, for errors that are
Error instances carrying a message (every throw in the embedded paths is a
new Error, so the non-Error fallback branch is unreachable here). -/
def normalizeSyncErrorMessage (message : String) : String :=
  if isTransientNetworkError message then tempUnavailableMsg else message

/-- Fuel-indexed worker for chunkArray; fuel = item count suffices for any
positive chunk size. -/
def chunkGo {T : Type} (chunkSize : Nat) : Nat → List T → List (List T)
  | 0, _ => []
  | _, [] => []
  | fuel + 1, items => items.take chunkSize :: chunkGo chunkSize fuel (items.drop chunkSize)

/-- chunkArray from useFlashcardSync.ts (empty input gives no chunks). -/
def chunkArray {T : Type} (items : List T) (chunkSize : Nat) : List (List T) :=
  chunkGo chunkSize items.length items

/-- Sequentially issue the upsert for each batch, aborting at the first
failing batch with the thrown message (error text joined to the phase
message as in the source).  Returns the number of upsert calls issued and
the error, if any.  The upsert payload is not observed by any claim, so the
environment decides each batch's outcome by batch index. -/
def runBatches {R : Type} (upsert : Nat → Option String) (phaseMsg : String) :
    Nat → List (List R) → Nat × Option String
  | _, [] => (0, none)
  | i, _batch :: rest =>
    match upsert i with
    | some msg => (1, some (phaseMsg ++ msg))
    | none =>
      let r := runBatches upsert phaseMsg (i + 1) rest
      (r.1 + 1, r.2)

/-- The result record returned by syncToCloud. -/
structure SyncResult where
  success : Bool
  error : Option String
  syncedCards : Option Nat
  syncedCategories : Option Nat
deriving DecidableEq, Repr

/-- The two persisted collections of the local store. -/
structure StorageState where
  categories : List Category
  cards : List Flashcard
deriving DecidableEq, Repr

/-- The mutable state read and written by syncToCloud: stored collections,
the online flag, and the two refs retryBlockedUntil and syncInProgress,
plus the lastSyncedAt and pendingChanges fields of the sync state. -/
structure EngineState where
  storage : StorageState
  isOnline : Bool
  retryBlockedUntil : Nat
  syncInProgress : Bool
  lastSyncedAt : Option Nat
  pendingChanges : Nat
deriving DecidableEq, Repr

/-- The environment of one syncToCloud call: the Date.now value, the auth
session, and the outcome of each category or flashcard batch upsert. -/
structure SyncEnv where
  now : Nat
  session : Option String
  catBatch : Nat → Option String
  cardBatch : Nat → Option String

/-- Result of one embedded syncToCloud call: the returned SyncResult, the
state after the call, and how many upsert network requests were issued. -/
structure SyncOutcome where
  result : SyncResult
  state : EngineState
  netCalls : Nat

/-- getPendingCards from useOfflineStorage.ts. -/
def getPendingCards (storage : StorageState) : List Flashcard :=
  storage.cards.filter (fun c => c.syncStatus = some SyncStatus.pending)

/-- getPendingCategories from useOfflineStorage.ts. -/
def getPendingCategories (storage : StorageState) : List Category :=
  storage.categories.filter (fun c => c.syncStatus = some SyncStatus.pending)

/-- The category upload phase of syncToCloud: batches of pending categories,
skipped entirely when none are pending. -/
def categoryBatchRun (env : SyncEnv) (storage : StorageState) : Nat × Option String :=
  if (getPendingCategories storage).length > 0 then
    runBatches env.catBatch "Category sync failed: " 0
      (chunkArray (getPendingCategories storage) SYNC_BATCH_SIZE)
  else (0, none)

/-- The flashcard upload phase of syncToCloud; the pending cards were read
before the category phase, so the batches come from the original storage. -/
def flashcardBatchRun (env : SyncEnv) (storage : StorageState) : Nat × Option String :=
  if (getPendingCards storage).length > 0 then
    runBatches env.cardBatch "Flashcard sync failed: " 0
      (chunkArray (getPendingCards storage) SYNC_BATCH_SIZE)
  else (0, none)

/-- The catch block of syncToCloud: normalize the message, arm the cooldown
only when the normalized message still tests transient, return the failure;
the finally block resets syncInProgress.  The storage inside st reflects any
writes made before the throw. -/
def catchOutcome (env : SyncEnv) (st : EngineState) (message : String) (calls : Nat) :
    SyncOutcome :=
  let normalizedMessage := normalizeSyncErrorMessage message
  let blocked :=
    if isTransientNetworkError normalizedMessage then
      env.now + TRANSIENT_FAILURE_COOLDOWN_MS
    else st.retryBlockedUntil
  { result := { success := false, error := some normalizedMessage,
                syncedCards := none, syncedCategories := none },
    state := { st with retryBlockedUntil := blocked, syncInProgress := false },
    netCalls := calls }

/-- syncToCloud from useFlashcardSync.ts: guards (flag, offline, cooldown
window, single-flight), auth check, category batches then flashcard batches
with mark-all-synced after each successful phase, cooldown reset and
counters on success, catch block on a failing batch. -/
def syncToCloud (env : SyncEnv) (st : EngineState) : SyncOutcome :=
  if ENABLE_CLOUD_SYNC = false then
    { result := { success := true, error := some "Cloud sync is disabled",
                  syncedCards := none, syncedCategories := none },
      state := st, netCalls := 0 }
  else if st.isOnline = false then
    { result := { success := false, error := some "Device is offline",
                  syncedCards := none, syncedCategories := none },
      state := st, netCalls := 0 }
  else if env.now < st.retryBlockedUntil then
    { result := { success := false, error := some tempUnavailableMsg,
                  syncedCards := none, syncedCategories := none },
      state := st, netCalls := 0 }
  else if st.syncInProgress then
    { result := { success := false, error := some "Sync already in progress",
                  syncedCards := none, syncedCategories := none },
      state := st, netCalls := 0 }
  else
    match env.session with
    | none =>
      { result := { success := false, error := some "Please sign in to sync",
                    syncedCards := none, syncedCategories := none },
        state := st, netCalls := 0 }
    | some _user =>
      let pendingCards := getPendingCards st.storage
      let pendingCategories := getPendingCategories st.storage
      let catRun := categoryBatchRun env st.storage
      match catRun.2 with
      | some msg => catchOutcome env st msg catRun.1
      | none =>
        let storage1 :=
          if pendingCategories.length > 0 then
            { st.storage with categories :=
                st.storage.categories.map (fun cat =>
                  { cat with syncStatus := some SyncStatus.synced }) }
          else st.storage
        let cardRun := flashcardBatchRun env st.storage
        match cardRun.2 with
        | some msg => catchOutcome env { st with storage := storage1 } msg
            (catRun.1 + cardRun.1)
        | none =>
          let storage2 :=
            if pendingCards.length > 0 then
              { storage1 with cards :=
                  storage1.cards.map (fun card =>
                    { card with syncStatus := some SyncStatus.synced }) }
            else storage1
          { result := { success := true, error := none,
                        syncedCards := some pendingCards.length,
                        syncedCategories := some pendingCategories.length },
            state := { st with
              storage := storage2, retryBlockedUntil := 0,
              syncInProgress := false, lastSyncedAt := some env.now,
              pendingChanges := 0 },
            netCalls := catRun.1 + cardRun.1 }

/-- Chain input for the dedupe dangling-reference scenario: three categories
with one normalized name, all pending, strictly increasing updatedAt. -/
def catChainA : Category :=
  { id := "a", name := "x", icon := "A", color := "coral", order := none,
    createdAt := none, updatedAt := some 0, syncStatus := some SyncStatus.pending }

/-- Second member of the dedupe chain (id b, updatedAt 10). -/
def catChainB : Category :=
  { id := "b", name := "x", icon := "A", color := "coral", order := none,
    createdAt := none, updatedAt := some 10, syncStatus := some SyncStatus.pending }

/-- Third member of the dedupe chain (id c, updatedAt 20). -/
def catChainC : Category :=
  { id := "c", name := "x", icon := "A", color := "coral", order := none,
    createdAt := none, updatedAt := some 20, syncStatus := some SyncStatus.pending }

/-- Flashcard referencing the first chain member. -/
def cardRefA : Flashcard :=
  { id := "f1", word := "w", imageUrl := "", categoryId := "a", createdAt := none,
    updatedAt := some 0, syncStatus := some SyncStatus.pending }

/-- Chain input for the idRemap scenario, with distinct ids p, q, r. -/
def catChainP : Category :=
  { id := "p", name := "y", icon := "A", color := "coral", order := none,
    createdAt := none, updatedAt := some 0, syncStatus := some SyncStatus.pending }

/-- Second member of the idRemap chain (id q, updatedAt 10). -/
def catChainQ : Category :=
  { id := "q", name := "y", icon := "A", color := "coral", order := none,
    createdAt := none, updatedAt := some 10, syncStatus := some SyncStatus.pending }

/-- Third member of the idRemap chain (id r, updatedAt 20). -/
def catChainR : Category :=
  { id := "r", name := "y", icon := "A", color := "coral", order := none,
    createdAt := none, updatedAt := some 20, syncStatus := some SyncStatus.pending }

/-- Pending category named Animals with id c1 (the spec's dedupe example). -/
def catPendingAnimals : Category :=
  { id := "c1", name := "Animals", icon := "A", color := "coral", order := none,
    createdAt := none, updatedAt := some 5, syncStatus := some SyncStatus.pending }

/-- Synced category named animals with id c2 (the spec's dedupe example). -/
def catSyncedAnimals : Category :=
  { id := "c2", name := "animals", icon := "A", color := "coral", order := none,
    createdAt := none, updatedAt := some 3, syncStatus := some SyncStatus.synced }

/-- Flashcard in conflict status referencing category m. -/
def cardConflictM : Flashcard :=
  { id := "f9", word := "w", imageUrl := "", categoryId := "m", createdAt := none,
    updatedAt := some 1, syncStatus := some SyncStatus.conflict }

/-- Synced flashcard referencing category m, for the remap witness. -/
def cardSyncedM : Flashcard :=
  { id := "f8", word := "w", imageUrl := "", categoryId := "m", createdAt := none,
    updatedAt := some 1, syncStatus := some SyncStatus.synced }

/-- Sample local category for witnesses (id a, updatedAt 100, pending). -/
def catLocalA : Category :=
  { id := "a", name := "Animals", icon := "A", color := "coral", order := none,
    createdAt := none, updatedAt := some 100, syncStatus := some SyncStatus.pending }

/-- Sample remote category for witnesses (id a, updatedAt 200, synced). -/
def catRemoteA200 : Category :=
  { id := "a", name := "Animals", icon := "A", color := "coral", order := none,
    createdAt := none, updatedAt := some 200, syncStatus := some SyncStatus.synced }

/-- Sample remote category for witnesses (id a, updatedAt 50, synced). -/
def catRemoteA50 : Category :=
  { id := "a", name := "Animals", icon := "A", color := "coral", order := none,
    createdAt := none, updatedAt := some 50, syncStatus := some SyncStatus.synced }

/-- Sample category with a different id (id b, updatedAt 70, pending). -/
def catLocalB : Category :=
  { id := "b", name := "Colors", icon := "C", color := "sky", order := none,
    createdAt := none, updatedAt := some 70, syncStatus := some SyncStatus.pending }

/-- Hexadecimal digit test, both cases (the regex has the i flag). -/
def isHexDigit (c : Char) : Bool :=
  ('0' ≤ c && c ≤ '9') || ('a' ≤ c && c ≤ 'f') || ('A' ≤ c && c ≤ 'F')

/-- isUuid from useOfflineStorage.ts: the case-insensitive UUID regex
8-4-4-4-12 with version digit 1-5 at index 14 and variant 8, 9, a or b at
index 19, spelled out positionally. -/
def isUuid (s : String) : Bool :=
  let cs := s.data
  cs.length == 36 &&
  (cs.enum.all fun p =>
    let i := p.1
    let c := p.2
    if i == 8 || i == 13 || i == 18 || i == 23 then c == '-'
    else if i == 14 then '1' ≤ c && c ≤ '5'
    else if i == 19 then
      c == '8' || c == '9' || c == 'a' || c == 'b' || c == 'A' || c == 'B'
    else isHexDigit c)

/-- The legacy-id check of getAllCategories. -/
def hasLegacyCategoryIds (categories : List Category) : Bool :=
  categories.any (fun category => ! isUuid category.id)

/-- Persistent store state: the two stored collections (none when the key
was never written) and the module-level hasUnseenMigration flag. -/
structure StoreState where
  categories : Option (List Category)
  cards : Option (List Flashcard)
  hasUnseenMigration : Bool
deriving Repr

/-- Environment of a store read: the Date.now value and the successive ids
produced by generateClientId (crypto.randomUUID when available). -/
structure StoreEnv where
  now : Nat
  freshId : Nat → String

/-- getAllCards from useOfflineStorage.ts: return the stored cards, seeding
the empty default list on first run.  Storage-error fallbacks are not
modelled (no claim concerns a failing store). -/
def getAllCards (st : StoreState) : List Flashcard × StoreState :=
  match st.cards with
  | none => ([], { st with cards := some [] })
  | some cards => (cards, st)

/-- The category loop of the legacy migration: each non-UUID id is replaced
by the next generateClientId value (the counter threads the successive
calls), recording old-to-new in the id map; entries are kept in encounter
order, as a JavaScript Map would. -/
def migrateCategoriesGo (freshId : Nat → String) (now : Nat) :
    Nat → List Category → List Category × List (String × String) × Nat
  | k, [] => ([], [], k)
  | k, category :: rest =>
    if isUuid category.id then
      let r := migrateCategoriesGo freshId now k rest
      (category :: r.1, r.2.1, r.2.2)
    else
      let migratedId := freshId k
      let r := migrateCategoriesGo freshId now (k + 1) rest
      ({ category with
          id := migratedId, updatedAt := some now,
          syncStatus := some SyncStatus.pending } :: r.1,
       (category.id, migratedId) :: r.2.1, r.2.2)

/-- The card loop of the legacy migration: a non-UUID card id gets a fresh
id, a mapped categoryId is rewritten, and a card changed either way gets
updatedAt bumped and status pending; untouched cards are returned as-is. -/
def migrateCardsGo (freshId : Nat → String) (now : Nat)
    (categoryIdMap : List (String × String)) :
    Nat → List Flashcard → List Flashcard × Nat
  | k, [] => ([], k)
  | k, card :: rest =>
    let idPart : String × Nat × Bool :=
      if isUuid card.id then (card.id, k, false) else (freshId k, k + 1, true)
    let nextCategoryId := (mapGet categoryIdMap card.categoryId).getD card.categoryId
    let didChange := idPart.2.2 || nextCategoryId != card.categoryId
    let migrated :=
      if didChange then
        { card with
            id := idPart.1, categoryId := nextCategoryId,
            updatedAt := some now, syncStatus := some SyncStatus.pending }
      else card
    let r := migrateCardsGo freshId now categoryIdMap idPart.2.1 rest
    (migrated :: r.1, r.2)

/-- The default category templates of createDefaultCategories. -/
def defaultCategoryTemplates : List (String × String × String) :=
  [("Animals", "🐾", "coral"), ("Colors", "🎨", "sky"), ("Numbers", "🔢", "mint"),
   ("Food", "🍎", "sunshine"), ("Shapes", "⭐", "lavender"), ("Nature", "🌸", "peach")]

/-- createDefaultCategories from useOfflineStorage.ts. -/
def createDefaultCategories (freshId : Nat → String) (now : Nat) : List Category :=
  defaultCategoryTemplates.enum.map fun p =>
    { id := freshId p.1, name := p.2.1, icon := p.2.2.1, color := p.2.2.2,
      order := some p.1, createdAt := some (now + p.1), updatedAt := some (now + p.1),
      syncStatus := some SyncStatus.pending }

/-- getAllCategories from useOfflineStorage.ts: seed defaults when the key
is absent; otherwise, when some stored id is not a UUID, regenerate ids for
the legacy categories, rewrite the cards whose id or categoryId is affected,
persist (cards only when some card changed, as in the source), and raise the
one-shot migration flag. -/
def getAllCategories (env : StoreEnv) (st : StoreState) : List Category × StoreState :=
  match st.categories with
  | none =>
    let defaults := createDefaultCategories env.freshId env.now
    (defaults, { st with categories := some defaults })
  | some categories =>
    if hasLegacyCategoryIds categories then
      let migration := migrateCategoriesGo env.freshId env.now 0 categories
      let readCards := getAllCards st
      let hasLegacyCards := readCards.1.any (fun card =>
        ! isUuid card.id || (mapGet migration.2.1 card.categoryId).isSome)
      let migratedCards :=
        if hasLegacyCards then
          (migrateCardsGo env.freshId env.now migration.2.1 migration.2.2 readCards.1).1
        else readCards.1
      (migration.1,
       { readCards.2 with
          categories := some migration.1,
          cards := if hasLegacyCards then some migratedCards else readCards.2.cards,
          hasUnseenMigration := true })
    else (categories, st)

/-- consumeMigrationNotice from useOfflineStorage.ts: edge-triggered read of
the one-shot migration flag. -/
def consumeMigrationNotice (st : StoreState) : Bool × StoreState :=
  if st.hasUnseenMigration then (true, { st with hasUnseenMigration := false })
  else (false, st)

/-- A category with a legacy (non-UUID) id. -/
def catLegacy : Category :=
  { id := "legacy-1", name := "Animals", icon := "A", color := "coral",
    order := some 0, createdAt := some 1, updatedAt := some 1,
    syncStatus := some SyncStatus.synced }

/-- A flashcard referencing the legacy category. -/
def cardLegacyRef : Flashcard :=
  { id := "123e4567-e89b-12d3-a456-426614174001", word := "dog", imageUrl := "",
    categoryId := "legacy-1", createdAt := some 1, updatedAt := some 1,
    syncStatus := some SyncStatus.synced }

/-- Store state holding the legacy category and its flashcard. -/
def migState : StoreState :=
  { categories := some [catLegacy], cards := some [cardLegacyRef],
    hasUnseenMigration := false }

/-- Environment whose id generator always returns a fixed valid UUID. -/
def migEnv : StoreEnv :=
  { now := 77, freshId := fun _ => "123e4567-e89b-12d3-a456-426614174000" }

/-- State with one pending category, online, no cooldown, idle. -/
def pushStateOne : EngineState :=
  { storage := { categories := [catLocalA], cards := [] }, isOnline := true,
    retryBlockedUntil := 0, syncInProgress := false, lastSyncedAt := none,
    pendingChanges := 1 }

/-- Environment whose category upsert fails with a transient network error. -/
def pushEnvTransient : SyncEnv :=
  { now := 1000, session := some "u", catBatch := fun _ => some "Failed to fetch",
    cardBatch := fun _ => none }

/-- The same failing environment 500 ms later, well within the claimed
30 s cooldown window. -/
def pushEnvLater : SyncEnv :=
  { now := 1500, session := some "u", catBatch := fun _ => some "Failed to fetch",
    cardBatch := fun _ => none }

/-- State with one pending category and one pending flashcard. -/
def pushStateCatCard : EngineState :=
  { storage := { categories := [catLocalA], cards := [cardRefA] }, isOnline := true,
    retryBlockedUntil := 0, syncInProgress := false, lastSyncedAt := none,
    pendingChanges := 2 }

/-- Environment where category batches succeed and the flashcard batch fails. -/
def pushEnvCardFail : SyncEnv :=
  { now := 1000, session := some "u", catBatch := fun _ => none,
    cardBatch := fun _ => some "boom" }

/-- State identical to pushStateOne but with a push already in flight. -/
def inFlightState : EngineState :=
  { storage := { categories := [catLocalA], cards := [] }, isOnline := true,
    retryBlockedUntil := 0, syncInProgress := true, lastSyncedAt := none,
    pendingChanges := 1 }

/-- Number.MAX_SAFE_INTEGER, the default sort key for a missing order. -/
def maxSafeInteger : Nat := 2 ^ 53 - 1

/-- The non-strict order realized by the sortCategories comparator in
useFlashcards.ts: ascending order field (missing treated as
MAX_SAFE_INTEGER), ties broken by ascending createdAt (missing treated
as 0). -/
def categoryBefore (a b : Category) : Prop :=
  a.order.getD maxSafeInteger < b.order.getD maxSafeInteger ∨
  (a.order.getD maxSafeInteger = b.order.getD maxSafeInteger ∧
    a.createdAt.getD 0 ≤ b.createdAt.getD 0)

instance : DecidableRel categoryBefore := fun a b => by
  unfold categoryBefore
  exact inferInstance

/-- sortCategories from useFlashcards.ts: JavaScript Array.sort is stable,
so it is a stable sort by the comparator's non-strict order. -/
def sortCategories (items : List Category) : List Category :=
  List.insertionSort categoryBefore items

/-- reorderCategories from useFlashcards.ts (its pure state computation):
build the id-to-index Map from the given sequence, assign each listed
category its position as order with updatedAt bumped and status pending,
leave unlisted categories untouched, and re-sort. -/
def reorderCategories (categoryIds : List String) (now : Nat)
    (categories : List Category) : List Category :=
  let orderMap := categoryIds.enum.foldl (fun m p => mapSet m p.2 p.1) []
  sortCategories (categories.map fun cat =>
    match mapGet orderMap cat.id with
    | none => cat
    | some nextOrder =>
      { cat with
          order := some nextOrder, updatedAt := some now,
          syncStatus := some SyncStatus.pending })

/-- The in-memory collections owned by the useFlashcards facade. -/
structure FacadeState where
  categories : List Category
  cards : List Flashcard
deriving Repr

/-- The effect of the facade's reorderCategories call on the two
collections: it writes only the recomputed category list; the source never
reads or saves the cards in this call. -/
def reorderCategoriesStep (categoryIds : List String) (now : Nat)
    (st : FacadeState) : FacadeState :=
  { st with categories := reorderCategories categoryIds now st.categories }

/-- Facade state for the reorder witness. -/
def facadeSample : FacadeState :=
  { categories := [catLocalA, catLocalB], cards := [cardRefA] }

-- ======================================================================
-- Theorems
-- ======================================================================

theorem mapGet_mapSet_self {V : Type} (m : List (String × V)) (k : String) (v : V) :
    mapGet (mapSet m k v) k = some v := by
  induction m with
  | nil => simp [mapSet, mapGet]
  | cons p rest ih =>
    obtain ⟨k', v'⟩ := p
    by_cases h : k' = k
    · simp [mapSet, h, mapGet]
    · simp [mapSet, h, mapGet, ih]

theorem mapGet_mapSet_ne {V : Type} (m : List (String × V)) (k k' : String) (v : V)
    (h : k ≠ k') : mapGet (mapSet m k v) k' = mapGet m k' := by
  induction m with
  | nil => simp [mapSet, mapGet, h]
  | cons p rest ih =>
    obtain ⟨k₁, v₁⟩ := p
    by_cases hk : k₁ = k
    · subst hk
      simp [mapSet, mapGet, h]
    · simp only [mapSet, if_neg hk, mapGet]
      by_cases hk' : k₁ = k'
      · simp [hk']
      · simp [hk', ih]

theorem mapSet_of_not_mem_keys {V : Type} (m : List (String × V)) (k : String) (v : V)
    (h : k ∉ mapKeys m) : mapSet m k v = m ++ [(k, v)] := by
  induction m with
  | nil => simp [mapSet]
  | cons p rest ih =>
    obtain ⟨k₁, v₁⟩ := p
    simp only [mapKeys, List.map_cons, List.mem_cons, not_or] at h
    have hne : ¬ k₁ = k := fun hh => h.1 hh.symm
    simp only [mapSet, if_neg hne, List.cons_append, List.cons.injEq, true_and]
    exact ih (by simpa [mapKeys] using h.2)

theorem findById_eq_none {T : Type} [SyncEntity T] (l : List T) (k : String)
    (h : k ∉ idsOf l) : findById l k = none := by
  induction l with
  | nil => simp [findById]
  | cons x rest ih =>
    simp only [idsOf, List.map_cons, List.mem_cons, not_or] at h
    have hne : ¬ entityId x = k := fun hh => h.1 hh.symm
    simp only [findById, if_neg hne]
    exact ih (by simpa [idsOf] using h.2)

theorem findById_self {T : Type} [SyncEntity T] (l : List T) (x : T)
    (hnd : (idsOf l).Nodup) (hx : x ∈ l) : findById l (entityId x) = some x := by
  induction l with
  | nil => cases hx
  | cons y rest ih =>
    simp only [idsOf, List.map_cons, List.nodup_cons] at hnd
    rcases List.mem_cons.mp hx with rfl | hx'
    · simp [findById]
    · have hne : entityId y ≠ entityId x := by
        intro he
        exact hnd.1 (he ▸ List.mem_map_of_mem entityId hx')
      simp only [findById, if_neg hne]
      exact ih hnd.2 hx'

theorem mapGet_insertAll {T : Type} [SyncEntity T] (items : List T)
    (m : List (String × T)) (k : String) (hnd : (idsOf items).Nodup) :
    mapGet (insertAll m items) k =
      match findById items k with
      | some e => some e
      | none => mapGet m k := by
  induction items generalizing m with
  | nil => simp [insertAll, findById]
  | cons it rest ih =>
    simp only [idsOf, List.map_cons, List.nodup_cons] at hnd
    have hstep : insertAll m (it :: rest) = insertAll (mapSet m (entityId it) it) rest := rfl
    rw [hstep, ih _ hnd.2]
    by_cases hk : entityId it = k
    · subst hk
      have hnone : findById rest (entityId it) = none :=
        findById_eq_none rest _ (by simpa [idsOf] using hnd.1)
      simp [findById, hnone, mapGet_mapSet_self]
    · simp only [findById, if_neg hk]
      cases hfr : findById rest k
      · simp [mapGet_mapSet_ne m _ _ it hk]
      · simp

theorem mapGet_mergeStep_ne {T : Type} [SyncEntity T] (m : List (String × T)) (r : T)
    (k : String) (h : entityId r ≠ k) : mapGet (mergeStep m r) k = mapGet m k := by
  unfold mergeStep
  cases hm : mapGet m (entityId r) with
  | none => simp [mapGet_mapSet_ne m _ _ r h]
  | some localItem =>
    by_cases hgt : updD r > updD localItem
    · simp [hgt, mapGet_mapSet_ne m _ _ r h]
    · simp [hgt]

theorem mapGet_mergeAll {T : Type} [SyncEntity T] (rs : List T)
    (m : List (String × T)) (k : String) (hnd : (idsOf rs).Nodup) :
    mapGet (mergeAll m rs) k =
      match findById rs k with
      | none => mapGet m k
      | some er =>
        match mapGet m k with
        | none => some er
        | some el => some (if updD er > updD el then er else el) := by
  induction rs generalizing m with
  | nil => simp [mergeAll, findById]
  | cons r rest ih =>
    simp only [idsOf, List.map_cons, List.nodup_cons] at hnd
    have hstep : mergeAll m (r :: rest) = mergeAll (mergeStep m r) rest := rfl
    rw [hstep, ih _ hnd.2]
    by_cases hk : entityId r = k
    · subst hk
      have hnone : findById rest (entityId r) = none :=
        findById_eq_none rest _ (by simpa [idsOf] using hnd.1)
      simp only [findById, if_pos rfl, hnone]
      unfold mergeStep
      cases hm : mapGet m (entityId r) with
      | none => simp [mapGet_mapSet_self]
      | some localItem =>
        by_cases hgt : updD r > updD localItem
        · simp [hgt, mapGet_mapSet_self]
        · simp [hgt, hm]
    · simp only [findById, if_neg hk]
      cases hfr : findById rest k
      · simp [mapGet_mergeStep_ne m r k hk]
      · simp [mapGet_mergeStep_ne m r k hk]

theorem keyedMap_mapSet {T : Type} [SyncEntity T] (m : List (String × T)) (v : T)
    (h : keyedMap m) : keyedMap (mapSet m (entityId v) v) := by
  induction m with
  | nil =>
    intro p hp
    simp only [mapSet, List.mem_singleton] at hp
    subst hp; rfl
  | cons q rest ih =>
    obtain ⟨k₁, v₁⟩ := q
    have hq : k₁ = entityId v₁ := h _ (List.mem_cons_self _ _)
    have hrest : keyedMap rest := fun p hp => h p (List.mem_cons_of_mem _ hp)
    intro p hp
    simp only [mapSet] at hp
    split at hp
    · rcases List.mem_cons.mp hp with rfl | hp'
      · rfl
      · exact hrest _ hp'
    · rcases List.mem_cons.mp hp with rfl | hp'
      · exact hq
      · exact ih hrest _ hp'

theorem keyedMap_insertAll {T : Type} [SyncEntity T] (items : List T)
    (m : List (String × T)) (h : keyedMap m) : keyedMap (insertAll m items) := by
  induction items generalizing m with
  | nil => exact h
  | cons it rest ih => exact ih _ (keyedMap_mapSet m it h)

theorem keyedMap_mergeAll {T : Type} [SyncEntity T] (rs : List T)
    (m : List (String × T)) (h : keyedMap m) : keyedMap (mergeAll m rs) := by
  induction rs generalizing m with
  | nil => exact h
  | cons r rest ih =>
    refine ih _ ?_
    unfold mergeStep
    cases hm : mapGet m (entityId r) with
    | none => exact keyedMap_mapSet m r h
    | some localItem =>
      by_cases hgt : updD r > updD localItem
      · simp only [if_pos hgt]
        exact keyedMap_mapSet m r h
      · simp only [if_neg hgt]
        exact h

theorem findById_map_values {T : Type} [SyncEntity T] (m : List (String × T))
    (k : String) (h : keyedMap m) : findById (m.map (·.2)) k = mapGet m k := by
  induction m with
  | nil => simp [findById, mapGet]
  | cons p rest ih =>
    obtain ⟨k₁, v₁⟩ := p
    have hk₁ : k₁ = entityId v₁ := h _ (List.mem_cons_self _ _)
    have hrest : keyedMap rest := fun q hq => h q (List.mem_cons_of_mem _ hq)
    subst hk₁
    simp only [List.map_cons, findById, mapGet]
    by_cases hk : entityId v₁ = k
    · simp [hk]
    · simp [hk, ih hrest]

theorem mem_mapKeys_mapSet {V : Type} (m : List (String × V)) (k a : String) (v : V)
    (h : a ∈ mapKeys (mapSet m k v)) : a = k ∨ a ∈ mapKeys m := by
  induction m with
  | nil => simpa [mapSet, mapKeys] using h
  | cons p rest ih =>
    obtain ⟨k₁, v₁⟩ := p
    by_cases hk : k₁ = k
    · have hm : mapSet ((k₁, v₁) :: rest) k v = (k, v) :: rest := by
        simp [mapSet, hk]
      rw [hm] at h
      simp only [mapKeys, List.map_cons, List.mem_cons] at h ⊢
      rcases h with h | h
      · exact Or.inl h
      · exact Or.inr (Or.inr h)
    · have hm : mapSet ((k₁, v₁) :: rest) k v = (k₁, v₁) :: mapSet rest k v := by
        simp [mapSet, hk]
      rw [hm] at h
      simp only [mapKeys, List.map_cons, List.mem_cons] at h ⊢
      rcases h with h | h
      · exact Or.inr (Or.inl h)
      · rcases ih h with h' | h'
        · exact Or.inl h'
        · exact Or.inr (Or.inr h')

theorem nodup_mapKeys_mapSet {V : Type} (m : List (String × V)) (k : String) (v : V)
    (h : (mapKeys m).Nodup) : (mapKeys (mapSet m k v)).Nodup := by
  induction m with
  | nil => simp [mapSet, mapKeys]
  | cons p rest ih =>
    obtain ⟨k₁, v₁⟩ := p
    simp only [mapKeys, List.map_cons, List.nodup_cons] at h
    by_cases hk : k₁ = k
    · subst hk
      simpa [mapSet, mapKeys, List.nodup_cons] using h
    · simp only [mapSet, if_neg hk, mapKeys, List.map_cons, List.nodup_cons]
      refine ⟨fun hmem => ?_, ih h.2⟩
      rcases mem_mapKeys_mapSet rest k k₁ v hmem with h' | h'
      · exact hk h'
      · exact h.1 h'

theorem nodup_mapKeys_insertAll {T : Type} [SyncEntity T] (items : List T)
    (m : List (String × T)) (h : (mapKeys m).Nodup) :
    (mapKeys (insertAll m items)).Nodup := by
  induction items generalizing m with
  | nil => exact h
  | cons it rest ih => exact ih _ (nodup_mapKeys_mapSet m _ it h)

theorem nodup_mapKeys_mergeAll {T : Type} [SyncEntity T] (rs : List T)
    (m : List (String × T)) (h : (mapKeys m).Nodup) :
    (mapKeys (mergeAll m rs)).Nodup := by
  induction rs generalizing m with
  | nil => exact h
  | cons r rest ih =>
    refine ih _ ?_
    unfold mergeStep
    cases hm : mapGet m (entityId r) with
    | none => exact nodup_mapKeys_mapSet m _ r h
    | some localItem =>
      by_cases hgt : updD r > updD localItem
      · simp only [if_pos hgt]
        exact nodup_mapKeys_mapSet m _ r h
      · simp only [if_neg hgt]
        exact h

theorem insertAll_fresh {T : Type} [SyncEntity T] (items : List T)
    (m : List (String × T)) (hnd : (idsOf items).Nodup)
    (hfresh : ∀ x ∈ items, entityId x ∉ mapKeys m) :
    insertAll m items = m ++ items.map (fun x => (entityId x, x)) := by
  induction items generalizing m with
  | nil => simp [insertAll]
  | cons it rest ih =>
    simp only [idsOf, List.map_cons, List.nodup_cons] at hnd
    have hstep : insertAll m (it :: rest) = insertAll (mapSet m (entityId it) it) rest := rfl
    have hset : mapSet m (entityId it) it = m ++ [(entityId it, it)] :=
      mapSet_of_not_mem_keys m _ it (hfresh it (List.mem_cons_self _ _))
    rw [hstep, hset, ih _ hnd.2]
    · simp
    · intro x hx
      have hne : entityId x ≠ entityId it := by
        intro he
        exact hnd.1 (he ▸ List.mem_map_of_mem entityId hx)
      simp only [mapKeys, List.map_append, List.mem_append, List.map_cons, not_or]
      refine ⟨hfresh x (List.mem_cons_of_mem _ hx), ?_⟩
      simpa using hne

theorem mergeAll_id {T : Type} [SyncEntity T] (rs : List T) (m : List (String × T))
    (h : ∀ er ∈ rs, ∃ w, mapGet m (entityId er) = some w ∧ ¬ updD er > updD w) :
    mergeAll m rs = m := by
  induction rs with
  | nil => rfl
  | cons r rest ih =>
    obtain ⟨w, hw, hle⟩ := h r (List.mem_cons_self _ _)
    have hstepEq : mergeStep m r = m := by
      unfold mergeStep
      rw [hw]
      simp [hle]
    have : mergeAll m (r :: rest) = mergeAll (mergeStep m r) rest := rfl
    rw [this, hstepEq]
    exact ih (fun er her => h er (List.mem_cons_of_mem _ her))

theorem idsOf_map_values {T : Type} [SyncEntity T] (m : List (String × T))
    (h : keyedMap m) : idsOf (m.map (·.2)) = mapKeys m := by
  induction m with
  | nil => rfl
  | cons p rest ih =>
    have hp : p.1 = entityId p.2 := h _ (List.mem_cons_self _ _)
    have hrest : keyedMap rest := fun q hq => h q (List.mem_cons_of_mem _ hq)
    simp only [idsOf, mapKeys, List.map_cons, List.map_map] at ih ⊢
    rw [← hp]
    congr 1
    simpa [idsOf, mapKeys, List.map_map] using ih hrest

theorem map_values_pairs {T : Type} [SyncEntity T] (m : List (String × T))
    (h : keyedMap m) : (m.map (·.2)).map (fun x => (entityId x, x)) = m := by
  induction m with
  | nil => rfl
  | cons p rest ih =>
    have hp : p.1 = entityId p.2 := h _ (List.mem_cons_self _ _)
    have hrest : keyedMap rest := fun q hq => h q (List.mem_cons_of_mem _ hq)
    simp only [List.map_cons, ih hrest, List.cons.injEq, and_true]
    exact Prod.ext hp.symm rfl

theorem keyedMap_nil {T : Type} [SyncEntity T] : keyedMap ([] : List (String × T)) := by
  intro p hp
  cases hp

/-- C4: mergeData is the union by id of local and remote; for an id present
on both sides, the entry kept is the one with the strictly larger
updatedAt, and at equal updatedAt the local entry is kept.  Stated as a
characterization of the lookup-by-id of the merged list, for collections
with unique ids. -/
theorem mergeData_lastWriterWins {T : Type} [SyncEntity T] (l r : List T)
    (hl : (idsOf l).Nodup) (hr : (idsOf r).Nodup) (k : String) :
    findById (mergeData l r) k =
      match findById l k, findById r k with
      | none, none => none
      | some el, none => some el
      | none, some er => some er
      | some el, some er => some (if updD er > updD el then er else el) := by
  have hkeyed : keyedMap (mergeAll (insertAll ([] : List (String × T)) l) r) :=
    keyedMap_mergeAll r _ (keyedMap_insertAll l [] keyedMap_nil)
  rw [mergeData, findById_map_values _ k hkeyed, mapGet_mergeAll r _ k hr,
    mapGet_insertAll l [] k hl]
  cases hfl : findById l k <;> cases hfr : findById r k <;> simp [mapGet]

/-- Witness for C4 at the spec's example: local (id a, updatedAt 100) versus
remote (id a, updatedAt 200) yields the remote entry, while remote
updatedAt 50 keeps the local entry. -/
theorem mergeData_lastWriterWins_witness :
    findById (mergeData [catLocalA] [catRemoteA200]) "a" = some catRemoteA200 ∧
    findById (mergeData [catLocalA] [catRemoteA50]) "a" = some catLocalA := by
  constructor
  · exact (mergeData_lastWriterWins [catLocalA] [catRemoteA200]
      (by decide) (by decide) "a").trans (by decide)
  · exact (mergeData_lastWriterWins [catLocalA] [catRemoteA50]
      (by decide) (by decide) "a").trans (by decide)

/-- C8: mergeData is idempotent: merging the merged result with the same
remote input again changes nothing, and mergeData X X = X, for collections
with unique ids. -/
theorem mergeData_idempotent {T : Type} [SyncEntity T] :
    (∀ l r : List T, (idsOf l).Nodup → (idsOf r).Nodup →
        mergeData (mergeData l r) r = mergeData l r) ∧
    (∀ X : List T, (idsOf X).Nodup → mergeData X X = X) := by
  constructor
  · intro l r hl hr
    set M := mergeAll (insertAll ([] : List (String × T)) l) r with hM
    have hkeyed : keyedMap M :=
      keyedMap_mergeAll r _ (keyedMap_insertAll l [] keyedMap_nil)
    have hkeysNodup : (mapKeys M).Nodup :=
      nodup_mapKeys_mergeAll r _ (nodup_mapKeys_insertAll l [] (by simp [mapKeys]))
    have hm : mergeData l r = M.map (·.2) := rfl
    have hidsm : (idsOf (M.map (·.2))).Nodup := by
      rw [idsOf_map_values M hkeyed]
      exact hkeysNodup
    have hins : insertAll ([] : List (String × T)) (M.map (·.2)) = M := by
      rw [insertAll_fresh _ _ hidsm (by intro x hx hmem; simp [mapKeys] at hmem)]
      simpa using map_values_pairs M hkeyed
    have hall : ∀ er ∈ r, ∃ w, mapGet M (entityId er) = some w ∧ ¬ updD er > updD w := by
      intro er her
      have hfind : findById r (entityId er) = some er := findById_self r er hr her
      have hget := mapGet_mergeAll r (insertAll ([] : List (String × T)) l) (entityId er) hr
      rw [hfind] at hget
      rw [mapGet_insertAll l [] (entityId er) hl] at hget
      cases hfl : findById l (entityId er) with
      | none =>
        rw [hfl] at hget
        simp only [mapGet] at hget
        exact ⟨er, by rw [← hM] at hget; exact hget, by omega⟩
      | some el =>
        rw [hfl] at hget
        simp only at hget
        by_cases hgt : updD er > updD el
        · refine ⟨er, ?_, by omega⟩
          rw [← hM] at hget
          simpa [hgt] using hget
        · refine ⟨el, ?_, hgt⟩
          rw [← hM] at hget
          simpa [hgt] using hget
    calc mergeData (mergeData l r) r
        = (mergeAll (insertAll [] (M.map (·.2))) r).map (·.2) := by rw [hm]; rfl
      _ = (mergeAll M r).map (·.2) := by rw [hins]
      _ = M.map (·.2) := by rw [mergeAll_id r M hall]
      _ = mergeData l r := by rw [hm]
  · intro X hX
    have hins : insertAll ([] : List (String × T)) X =
        X.map (fun x => (entityId x, x)) := by
      rw [insertAll_fresh X [] hX (by intro x hx hmem; simp [mapKeys] at hmem)]
      simp
    have hall : ∀ ex ∈ X, ∃ w,
        mapGet (insertAll ([] : List (String × T)) X) (entityId ex) = some w ∧
          ¬ updD ex > updD w := by
      intro ex hex
      refine ⟨ex, ?_, by omega⟩
      have hget := mapGet_insertAll X ([] : List (String × T)) (entityId ex) hX
      rw [findById_self X ex hX hex] at hget
      simpa using hget
    calc mergeData X X
        = (mergeAll (insertAll [] X) X).map (·.2) := rfl
      _ = (insertAll ([] : List (String × T)) X).map (·.2) := by
          rw [mergeAll_id _ _ hall]
      _ = (X.map (fun x => (entityId x, x))).map (·.2) := by rw [hins]
      _ = X := by
          have hcomp : ((fun p : String × T => p.2) ∘ fun x => (entityId x, x)) = id := rfl
          rw [List.map_map, hcomp, List.map_id]

/-- C1 fails on the code: deduping a three-way duplicate chain (a, b, c with
one normalized name and increasing preference) leaves only category c, but
idRemap still sends a to the intermediate id b, so the remapped flashcard
references b, which is not in the deduplicated category list — a dangling
foreign key. -/
theorem dedupe_remap_dangling_reference :
    (dedupeCategoriesByName [catChainA, catChainB, catChainC]).categories.map Category.id
        = ["c"] ∧
    (remapCardsCategoryIds [cardRefA]
        (dedupeCategoriesByName [catChainA, catChainB, catChainC]).idRemap 99).map
        Flashcard.categoryId = ["b"] := by
  decide

/-- C5 fails as stated: in the chain p, q, r the surviving canonical is r,
yet idRemap sends the non-canonical p to the intermediate id q, not to the
canonical id r. -/
theorem dedupe_idRemap_not_canonical :
    (dedupeCategoriesByName [catChainP, catChainQ, catChainR]).categories.map Category.id
        = ["r"] ∧
    mapGet (dedupeCategoriesByName [catChainP, catChainQ, catChainR]).idRemap "p"
        = some "q" := by
  decide

theorem pickPreferredCategory_cases (c1 c2 : Category) :
    pickPreferredCategory c1 c2 = c1 ∨ pickPreferredCategory c1 c2 = c2 := by
  unfold pickPreferredCategory
  by_cases h1 : syncedScore c2 ≠ syncedScore c1
  · by_cases h2 : syncedScore c2 > syncedScore c1
    · simp [h1, h2]
    · simp [h1, h2]
  · by_cases h3 : c2.updatedAt.getD 0 ≠ c1.updatedAt.getD 0
    · by_cases h4 : c2.updatedAt.getD 0 > c1.updatedAt.getD 0
      · simp [h1, h3, h4]
      · simp [h1, h3, h4]
    · simp [h1, h3]

/-- C5 amended: for a pair of categories sharing a normalized name, the
survivor is pickPreferredCategory (synced preferred over non-synced, then
strictly larger updatedAt, ties keeping the first); when the second member
wins, both ids are mapped to it; when the first member wins, only the second
member's id is mapped and the canonical id itself is absent from idRemap. -/
theorem dedupePair_canonical (c1 c2 : Category)
    (hname : normalizeCategoryName c1.name = normalizeCategoryName c2.name)
    (hid : c1.id ≠ c2.id) :
    (dedupeCategoriesByName [c1, c2]).categories = [pickPreferredCategory c1 c2] ∧
    (syncedScore c2 ≠ syncedScore c1 →
      pickPreferredCategory c1 c2 = if syncedScore c2 > syncedScore c1 then c2 else c1) ∧
    (syncedScore c2 = syncedScore c1 →
      pickPreferredCategory c1 c2 =
        if c2.updatedAt.getD 0 > c1.updatedAt.getD 0 then c2 else c1) ∧
    ((pickPreferredCategory c1 c2).id = c2.id →
      mapGet (dedupeCategoriesByName [c1, c2]).idRemap c1.id = some c2.id ∧
      mapGet (dedupeCategoriesByName [c1, c2]).idRemap c2.id = some c2.id) ∧
    ((pickPreferredCategory c1 c2).id = c1.id →
      mapGet (dedupeCategoriesByName [c1, c2]).idRemap c2.id = some c1.id ∧
      mapGet (dedupeCategoriesByName [c1, c2]).idRemap c1.id = none) := by
  have hfold : dedupeCategoriesByName [c1, c2] =
      { categories := (dedupeStep (dedupeStep ([], []) c1) c2).1.map (·.2),
        idRemap := (dedupeStep (dedupeStep ([], []) c1) c2).2 } := rfl
  have hstep1 : dedupeStep (([] : List (String × Category)),
      ([] : List (String × String))) c1 = ([(normalizeCategoryName c1.name, c1)], []) := rfl
  have hget : mapGet [(normalizeCategoryName c1.name, c1)]
      (normalizeCategoryName c2.name) = some c1 := by
    simp [mapGet, hname]
  have hstep2 : dedupeStep ([(normalizeCategoryName c1.name, c1)],
      ([] : List (String × String))) c2 =
      ([(normalizeCategoryName c2.name, pickPreferredCategory c1 c2)],
        mapSet (if (pickPreferredCategory c1 c2).id ≠ c1.id then
            mapSet [] c1.id (pickPreferredCategory c1 c2).id else [])
          c2.id (pickPreferredCategory c1 c2).id) := by
    unfold dedupeStep
    dsimp only
    rw [hget]
    dsimp only
    simp [mapSet, hname]
  have hres : dedupeCategoriesByName [c1, c2] =
      { categories := [pickPreferredCategory c1 c2],
        idRemap := mapSet (if (pickPreferredCategory c1 c2).id ≠ c1.id then
            mapSet [] c1.id (pickPreferredCategory c1 c2).id else [])
          c2.id (pickPreferredCategory c1 c2).id } := by
    rw [hfold, hstep1, hstep2]
    rfl
  have hid' : ¬ c1.id = c2.id := hid
  have hid'' : ¬ c2.id = c1.id := fun hh => hid hh.symm
  refine ⟨by rw [hres], ?_, ?_, ?_, ?_⟩
  · intro hne
    simp [pickPreferredCategory, hne]
  · intro heq
    by_cases hup : c2.updatedAt.getD 0 = c1.updatedAt.getD 0
    · simp [pickPreferredCategory, heq, hup]
    · simp [pickPreferredCategory, heq, hup]
  · intro hc2
    have hrepl : ((pickPreferredCategory c1 c2).id ≠ c1.id) := by
      rw [hc2]
      exact hid''
    have hmapEq : mapSet (if (pickPreferredCategory c1 c2).id ≠ c1.id then
        mapSet [] c1.id (pickPreferredCategory c1 c2).id else [])
          c2.id (pickPreferredCategory c1 c2).id
        = [(c1.id, c2.id), (c2.id, c2.id)] := by
      rw [if_pos hrepl, hc2]
      simp [mapSet, hid']
    rw [hres]
    dsimp only
    rw [hmapEq]
    exact ⟨by simp [mapGet], by simp [mapGet, hid']⟩
  · intro hc1
    have hrepl : ¬ ((pickPreferredCategory c1 c2).id ≠ c1.id) := by
      rw [hc1]
      exact fun hh => hh rfl
    have hmapEq : mapSet (if (pickPreferredCategory c1 c2).id ≠ c1.id then
        mapSet [] c1.id (pickPreferredCategory c1 c2).id else [])
          c2.id (pickPreferredCategory c1 c2).id
        = [(c2.id, c1.id)] := by
      rw [if_neg hrepl, hc1]
      simp [mapSet]
    rw [hres]
    dsimp only
    rw [hmapEq]
    exact ⟨by simp [mapGet], by simp [mapGet, hid'']⟩

/-- Witness for the amended C5 at the spec's example pair: a pending
"Animals" (id c1) and a synced "animals" (id c2); the synced one survives and
both ids are remapped to it. -/
theorem dedupePair_canonical_witness :
    (dedupeCategoriesByName [catPendingAnimals, catSyncedAnimals]).categories
        = [catSyncedAnimals] ∧
    mapGet (dedupeCategoriesByName [catPendingAnimals, catSyncedAnimals]).idRemap "c1"
        = some "c2" ∧
    mapGet (dedupeCategoriesByName [catPendingAnimals, catSyncedAnimals]).idRemap "c2"
        = some "c2" := by
  have h := dedupePair_canonical catPendingAnimals catSyncedAnimals (by decide) (by decide)
  have hsurv : pickPreferredCategory catPendingAnimals catSyncedAnimals =
      catSyncedAnimals := by decide
  refine ⟨by rw [h.1, hsurv], ?_, ?_⟩
  · exact (h.2.2.2.1 (by rw [hsurv])).1
  · exact (h.2.2.2.1 (by rw [hsurv])).2

/-- C6 fails as stated: a flashcard in conflict status whose category id is
remapped is rewritten (categoryId becomes n) but keeps status conflict
instead of being demoted to pending. -/
theorem remapCards_conflict_not_demoted :
    (remapCardsCategoryIds [cardConflictM] [("m", "n")] 42).map Flashcard.categoryId
        = ["n"] ∧
    (remapCardsCategoryIds [cardConflictM] [("m", "n")] 42).map Flashcard.syncStatus
        = [some SyncStatus.conflict] := by
  decide

/-- C6 amended: remapCardsCategoryIds rewrites exactly the flashcards whose
category id has a differing, non-empty mapping: such a card gets the mapped
categoryId, updatedAt bumped to now, and status demoted to pending unless
its prior status was conflict, which is kept; every other card (and every
other field) is returned unchanged. -/
theorem remapCardsCategoryIds_spec (cards : List Flashcard)
    (idRemap : List (String × String)) (now : Nat) :
    (remapCardsCategoryIds cards idRemap now).length = cards.length ∧
    ∀ i card, cards.get? i = some card →
      ((mapGet idRemap card.categoryId = none ∨
        mapGet idRemap card.categoryId = some card.categoryId ∨
        mapGet idRemap card.categoryId = some "") →
          (remapCardsCategoryIds cards idRemap now).get? i = some card) ∧
      ∀ m, mapGet idRemap card.categoryId = some m → m ≠ "" → m ≠ card.categoryId →
        ∃ out, (remapCardsCategoryIds cards idRemap now).get? i = some out ∧
          out.categoryId = m ∧ out.updatedAt = some now ∧ out.id = card.id ∧
          out.word = card.word ∧ out.imageUrl = card.imageUrl ∧
          out.createdAt = card.createdAt ∧
          (card.syncStatus = some SyncStatus.conflict →
            out.syncStatus = some SyncStatus.conflict) ∧
          (card.syncStatus ≠ some SyncStatus.conflict →
            out.syncStatus = some SyncStatus.pending) := by
  by_cases hlen : idRemap.length = 0
  · have hmap : idRemap = [] := List.length_eq_zero.mp hlen
    subst hmap
    have hre : remapCardsCategoryIds cards [] now = cards := rfl
    refine ⟨by rw [hre], ?_⟩
    intro i card hcard
    refine ⟨fun _ => by rw [hre]; exact hcard, ?_⟩
    intro m hm
    simp [mapGet] at hm
  · have hre : remapCardsCategoryIds cards idRemap now =
        cards.map fun card =>
          match mapGet idRemap card.categoryId with
          | none => card
          | some mappedCategoryId =>
            if mappedCategoryId = "" ∨ mappedCategoryId = card.categoryId then card
            else
              { card with
                categoryId := mappedCategoryId,
                updatedAt := some now,
                syncStatus :=
                  if card.syncStatus = some SyncStatus.synced then some SyncStatus.pending
                  else some (card.syncStatus.getD SyncStatus.pending) } := by
      unfold remapCardsCategoryIds
      rw [if_neg hlen]
    refine ⟨by rw [hre]; simp, ?_⟩
    intro i card hcard
    have hget : (remapCardsCategoryIds cards idRemap now).get? i =
        some (match mapGet idRemap card.categoryId with
        | none => card
        | some mappedCategoryId =>
          if mappedCategoryId = "" ∨ mappedCategoryId = card.categoryId then card
          else
            { card with
              categoryId := mappedCategoryId,
              updatedAt := some now,
              syncStatus :=
                if card.syncStatus = some SyncStatus.synced then some SyncStatus.pending
                else some (card.syncStatus.getD SyncStatus.pending) }) := by
      rw [hre, List.get?_map, hcard]
      rfl
    constructor
    · intro hun
      rcases hun with hm | hm | hm
      · rw [hget, hm]
      · rw [hget, hm]
        simp
      · rw [hget, hm]
        simp
    · intro m hm hne hneq
      rw [hget, hm]
      have hcond : ¬ (m = "" ∨ m = card.categoryId) := by
        rintro (hh | hh)
        · exact hne hh
        · exact hneq hh
      simp only [if_neg hcond]
      refine ⟨_, rfl, rfl, rfl, rfl, rfl, rfl, rfl, ?_, ?_⟩
      · intro hconf
        simp [hconf]
      · intro hnconf
        cases hst : card.syncStatus with
        | none => simp
        | some st =>
          cases st with
          | synced => simp
          | pending => simp
          | conflict => exact absurd hst hnconf

/-- Witness for the amended C6: a synced flashcard whose category id m is
remapped to n becomes pending with categoryId n and updatedAt bumped. -/
theorem remapCardsCategoryIds_spec_witness :
    ∃ out, (remapCardsCategoryIds [cardSyncedM] [("m", "n")] 7).get? 0 = some out ∧
      out.categoryId = "n" ∧ out.updatedAt = some 7 ∧
      out.syncStatus = some SyncStatus.pending := by
  have h := (remapCardsCategoryIds_spec [cardSyncedM] [("m", "n")] 7).2 0
    cardSyncedM (by decide)
  obtain ⟨out, hout, hcat, hupd, _hid, _hw, _hurl, _hcr, _hconf, hpend⟩ :=
    h.2 "n" (by decide) (by decide) (by decide)
  exact ⟨out, hout, hcat, hupd, hpend (by decide)⟩

/-- Witness for C8 at a concrete pair of category collections. -/
theorem mergeData_idempotent_witness :
    mergeData (mergeData [catLocalA] [catRemoteA200, catLocalB]) [catRemoteA200, catLocalB]
        = mergeData [catLocalA] [catRemoteA200, catLocalB] ∧
    mergeData [catLocalA, catLocalB] [catLocalA, catLocalB] = [catLocalA, catLocalB] := by
  constructor
  · exact (mergeData_idempotent (T := Category)).1 [catLocalA] [catRemoteA200, catLocalB]
      (by decide) (by decide)
  · exact (mergeData_idempotent (T := Category)).2 [catLocalA, catLocalB] (by decide)

theorem normalize_defuses_transient_check (message : String) :
    isTransientNetworkError (normalizeSyncErrorMessage message) = false := by
  unfold normalizeSyncErrorMessage
  by_cases h : isTransientNetworkError message = true
  · rw [if_pos h]
    decide
  · rw [if_neg h]
    simpa using h

/-- C2 fails on the code: the catch block of syncToCloud tests
isTransientNetworkError on the already-normalized friendly message, which
matches no transient signature, so the cooldown is never armed.  At the
failing input (one pending category, upsert rejecting with a transient
"Failed to fetch" error at time 1000) the push returns the transient-
classified friendly error, yet retryBlockedUntil stays 0 and a second push
at time 1500 — inside the claimed 30 s window — still issues a network
call instead of short-circuiting. -/
theorem syncToCloud_cooldown_never_armed :
    (syncToCloud pushEnvTransient pushStateOne).result.success = false ∧
    (syncToCloud pushEnvTransient pushStateOne).result.error = some tempUnavailableMsg ∧
    (syncToCloud pushEnvTransient pushStateOne).state.retryBlockedUntil = 0 ∧
    (syncToCloud pushEnvLater (syncToCloud pushEnvTransient pushStateOne).state).netCalls
        = 1 := by
  decide

/-- C9: a push issued while another push is in flight changes no state and
issues no network call; when the device is online and no cooldown is
pending, it returns exactly the "Sync already in progress" failure. -/
theorem syncToCloud_single_flight (env : SyncEnv) (st : EngineState)
    (hflight : st.syncInProgress = true) :
    ((syncToCloud env st).state = st ∧ (syncToCloud env st).netCalls = 0) ∧
    (st.isOnline = true → st.retryBlockedUntil ≤ env.now →
      (syncToCloud env st).result =
        { success := false, error := some "Sync already in progress",
          syncedCards := none, syncedCategories := none }) := by
  unfold syncToCloud
  rw [if_neg (by decide : ¬ ENABLE_CLOUD_SYNC = false)]
  by_cases hon : st.isOnline = false
  · rw [if_pos hon]
    refine ⟨⟨rfl, rfl⟩, fun htrue _ => absurd htrue ?_⟩
    simp [hon]
  · rw [if_neg hon]
    by_cases hbl : env.now < st.retryBlockedUntil
    · rw [if_pos hbl]
      exact ⟨⟨rfl, rfl⟩, fun _ hle => absurd hbl (by omega)⟩
    · rw [if_neg hbl, if_pos hflight]
      exact ⟨⟨rfl, rfl⟩, fun _ _ => rfl⟩

/-- Witness for C9 at a concrete in-flight state. -/
theorem syncToCloud_single_flight_witness :
    (syncToCloud pushEnvCardFail inFlightState).state = inFlightState ∧
    (syncToCloud pushEnvCardFail inFlightState).netCalls = 0 ∧
    (syncToCloud pushEnvCardFail inFlightState).result.error
        = some "Sync already in progress" := by
  have h := syncToCloud_single_flight pushEnvCardFail inFlightState rfl
  refine ⟨h.1.1, h.1.2, ?_⟩
  rw [h.2 rfl (by decide)]

/-- C3 fails as stated: with one pending category and one pending flashcard,
category batches succeeding and the flashcard batch failing, the call
returns a failure but has already rewritten the stored categories to
synced, so a category's stored syncStatus was changed to synced by the
failing call. -/
theorem syncToCloud_partial_mark :
    (syncToCloud pushEnvCardFail pushStateCatCard).result.success = false ∧
    pushStateCatCard.storage.categories.map Category.syncStatus
        = [some SyncStatus.pending] ∧
    (syncToCloud pushEnvCardFail pushStateCatCard).state.storage.categories.map
        Category.syncStatus = [some SyncStatus.synced] := by
  decide

/-- C3 amended: a failing batch aborts the call with a failure result; a
category-phase failure leaves the stored collections untouched; a
flashcard-phase failure leaves the stored flashcards untouched but — the
category phase having already completed — leaves every stored category
marked synced whenever there were pending categories. -/
theorem syncToCloud_batch_failure (env : SyncEnv) (st : EngineState)
    (hon : st.isOnline = true) (hbl : st.retryBlockedUntil ≤ env.now)
    (hfl : st.syncInProgress = false) (u : String) (hs : env.session = some u) :
    (∀ n msg, categoryBatchRun env st.storage = (n, some msg) →
      (syncToCloud env st).result.success = false ∧
      (syncToCloud env st).state.storage = st.storage ∧
      (syncToCloud env st).netCalls = n) ∧
    (∀ m n msg, categoryBatchRun env st.storage = (m, none) →
      flashcardBatchRun env st.storage = (n, some msg) →
      (syncToCloud env st).result.success = false ∧
      (syncToCloud env st).state.storage.cards = st.storage.cards ∧
      (syncToCloud env st).state.storage.categories =
        (if (getPendingCategories st.storage).length > 0 then
          st.storage.categories.map
            (fun cat => { cat with syncStatus := some SyncStatus.synced })
        else st.storage.categories) ∧
      (syncToCloud env st).netCalls = m + n) := by
  have hrw : syncToCloud env st =
      (let catRun := categoryBatchRun env st.storage
      match catRun.2 with
      | some msg => catchOutcome env st msg catRun.1
      | none =>
        let storage1 :=
          if (getPendingCategories st.storage).length > 0 then
            { st.storage with categories :=
                st.storage.categories.map (fun cat =>
                  { cat with syncStatus := some SyncStatus.synced }) }
          else st.storage
        let cardRun := flashcardBatchRun env st.storage
        match cardRun.2 with
        | some msg => catchOutcome env { st with storage := storage1 } msg
            (catRun.1 + cardRun.1)
        | none =>
          let storage2 :=
            if (getPendingCards st.storage).length > 0 then
              { storage1 with cards :=
                  storage1.cards.map (fun card =>
                    { card with syncStatus := some SyncStatus.synced }) }
            else storage1
          { result := { success := true, error := none,
                        syncedCards := some (getPendingCards st.storage).length,
                        syncedCategories := some (getPendingCategories st.storage).length },
            state := { st with
              storage := storage2, retryBlockedUntil := 0,
              syncInProgress := false, lastSyncedAt := some env.now,
              pendingChanges := 0 },
            netCalls := catRun.1 + cardRun.1 }) := by
    unfold syncToCloud
    rw [if_neg (by decide : ¬ ENABLE_CLOUD_SYNC = false),
      if_neg (by simp [hon] : ¬ st.isOnline = false),
      if_neg (by omega : ¬ env.now < st.retryBlockedUntil),
      if_neg (by simp [hfl] : ¬ st.syncInProgress = true), hs]
  constructor
  · intro n msg hcat
    rw [hrw]
    simp only [hcat]
    exact ⟨rfl, rfl, rfl⟩
  · intro m n msg hcat hcard
    rw [hrw]
    simp only [hcat, hcard]
    refine ⟨rfl, ?_, ?_, rfl⟩
    · by_cases hp : (getPendingCategories st.storage).length > 0
      · simp only [if_pos hp]
        rfl
      · simp only [if_neg hp]
        rfl
    · by_cases hp : (getPendingCategories st.storage).length > 0
      · simp only [if_pos hp]
        rfl
      · simp only [if_neg hp]
        rfl

/-- Witness for the amended C3: one pending category, one pending flashcard,
flashcard batch failing — the push fails, cards stay untouched, and the
stored category has been marked synced. -/
theorem syncToCloud_batch_failure_witness :
    (syncToCloud pushEnvCardFail pushStateCatCard).result.success = false ∧
    (syncToCloud pushEnvCardFail pushStateCatCard).state.storage.cards
        = pushStateCatCard.storage.cards ∧
    (syncToCloud pushEnvCardFail pushStateCatCard).netCalls = 2 := by
  have h := (syncToCloud_batch_failure pushEnvCardFail pushStateCatCard rfl
    (by decide) rfl "u" rfl).2 1 1 "Flashcard sync failed: boom"
    (by decide) (by decide)
  exact ⟨h.1, h.2.1, h.2.2.2⟩

theorem category_eq_of_id_eq {cats : List Category} (hnd : (idsOf cats).Nodup)
    {c c' : Category} (hc : c ∈ cats) (hc' : c' ∈ cats) (hid : c.id = c'.id) :
    c = c' := by
  have h1 := findById_self cats c hnd hc
  have h2 := findById_self cats c' hnd hc'
  have hent : entityId c = entityId c' := hid
  rw [hent, h2] at h1
  exact (Option.some.inj h1).symm

theorem migrateCategoriesGo_spec (freshId : Nat → String) (now : Nat) :
    ∀ (cats : List Category) (k : Nat), (idsOf cats).Nodup →
    (migrateCategoriesGo freshId now k cats).1.length = cats.length ∧
    (∀ j cj, cats.get? j = some cj → isUuid cj.id = true →
      (migrateCategoriesGo freshId now k cats).1.get? j = some cj) ∧
    (∀ j cj, cats.get? j = some cj → isUuid cj.id = false →
      ∃ jj, k ≤ jj ∧
        mapGet (migrateCategoriesGo freshId now k cats).2.1 cj.id
          = some (freshId jj) ∧
        (migrateCategoriesGo freshId now k cats).1.get? j =
          some { cj with
            id := freshId jj, updatedAt := some now,
            syncStatus := some SyncStatus.pending }) ∧
    (∀ key nid, mapGet (migrateCategoriesGo freshId now k cats).2.1 key = some nid →
      ∃ c ∈ cats, c.id = key ∧ isUuid c.id = false) := by
  intro cats
  induction cats with
  | nil =>
    intro k _
    refine ⟨rfl, ?_, ?_, ?_⟩
    · intro j cj hj _
      simp at hj
    · intro j cj hj _
      simp at hj
    · intro key nid hkey
      simp [migrateCategoriesGo, mapGet] at hkey
  | cons ci rest ih =>
    intro k hnd
    simp only [idsOf, List.map_cons, List.nodup_cons] at hnd
    have hnd' : (idsOf rest).Nodup := hnd.2
    by_cases hu : isUuid ci.id = true
    · have hred : migrateCategoriesGo freshId now k (ci :: rest) =
          (ci :: (migrateCategoriesGo freshId now k rest).1,
           (migrateCategoriesGo freshId now k rest).2.1,
           (migrateCategoriesGo freshId now k rest).2.2) := by
        simp only [migrateCategoriesGo]
        rw [if_pos hu]
      obtain ⟨ihlen, ihuu, ihleg, ihmap⟩ := ih k hnd'
      rw [hred]
      refine ⟨by simpa using ihlen, ?_, ?_, ?_⟩
      · intro j cj hj hju
        cases j with
        | zero =>
          simp only [List.get?_cons_zero] at hj ⊢
          exact hj
        | succ j' =>
          simp only [List.get?_cons_succ] at hj ⊢
          exact ihuu j' cj hj hju
      · intro j cj hj hjl
        cases j with
        | zero =>
          simp only [List.get?_cons_zero] at hj
          cases Option.some.inj hj
          rw [hjl] at hu
          cases hu
        | succ j' =>
          simp only [List.get?_cons_succ] at hj ⊢
          exact ihleg j' cj hj hjl
      · intro key nid hkey
        obtain ⟨c, hcmem, hcid, hcleg⟩ := ihmap key nid hkey
        exact ⟨c, List.mem_cons_of_mem _ hcmem, hcid, hcleg⟩
    · have hf : isUuid ci.id = false := by simpa using hu
      have hred : migrateCategoriesGo freshId now k (ci :: rest) =
          ({ ci with
              id := freshId k, updatedAt := some now,
              syncStatus := some SyncStatus.pending }
             :: (migrateCategoriesGo freshId now (k + 1) rest).1,
           (ci.id, freshId k) :: (migrateCategoriesGo freshId now (k + 1) rest).2.1,
           (migrateCategoriesGo freshId now (k + 1) rest).2.2) := by
        simp only [migrateCategoriesGo]
        rw [if_neg hu]
      obtain ⟨ihlen, ihuu, ihleg, ihmap⟩ := ih (k + 1) hnd'
      rw [hred]
      refine ⟨by simpa using ihlen, ?_, ?_, ?_⟩
      · intro j cj hj hju
        cases j with
        | zero =>
          simp only [List.get?_cons_zero] at hj
          cases Option.some.inj hj
          rw [hju] at hf
          cases hf
        | succ j' =>
          simp only [List.get?_cons_succ] at hj ⊢
          exact ihuu j' cj hj hju
      · intro j cj hj hjl
        cases j with
        | zero =>
          simp only [List.get?_cons_zero] at hj
          cases Option.some.inj hj
          refine ⟨k, le_refl k, ?_, rfl⟩
          simp [mapGet]
        | succ j' =>
          simp only [List.get?_cons_succ] at hj ⊢
          obtain ⟨jj, hjj, hmg, hout⟩ := ihleg j' cj hj hjl
          have hcjmem : cj ∈ rest := List.get?_mem hj
          have hne : ¬ ci.id = cj.id := by
            intro he
            apply hnd.1
            have he' : entityId ci = entityId cj := he
            rw [he']
            exact List.mem_map_of_mem entityId hcjmem
          refine ⟨jj, by omega, ?_, hout⟩
          simp only [mapGet, if_neg hne]
          exact hmg
      · intro key nid hkey
        simp only [mapGet] at hkey
        by_cases hk : ci.id = key
        · exact ⟨ci, List.mem_cons_self _ _, hk, hf⟩
        · rw [if_neg hk] at hkey
          obtain ⟨c, hcmem, hcid, hcleg⟩ := ihmap key nid hkey
          exact ⟨c, List.mem_cons_of_mem _ hcmem, hcid, hcleg⟩

theorem migrateCardsGo_spec (freshId : Nat → String) (now : Nat)
    (mp : List (String × String)) :
    ∀ (cards : List Flashcard) (k : Nat),
    (migrateCardsGo freshId now mp k cards).1.length = cards.length ∧
    ∀ i cdi, cards.get? i = some cdi →
      ∃ out, (migrateCardsGo freshId now mp k cards).1.get? i = some out ∧
        out.categoryId = (mapGet mp cdi.categoryId).getD cdi.categoryId ∧
        ∀ nid, mapGet mp cdi.categoryId = some nid → nid ≠ cdi.categoryId →
          out.syncStatus = some SyncStatus.pending ∧ out.updatedAt = some now := by
  intro cards
  induction cards with
  | nil =>
    intro k
    refine ⟨rfl, ?_⟩
    intro i cdi h
    simp at h
  | cons card rest ih =>
    intro k
    have hred : ∃ mig k1,
        migrateCardsGo freshId now mp k (card :: rest) =
          (mig :: (migrateCardsGo freshId now mp k1 rest).1,
           (migrateCardsGo freshId now mp k1 rest).2) ∧
        mig.categoryId = (mapGet mp card.categoryId).getD card.categoryId ∧
        (∀ nid, mapGet mp card.categoryId = some nid → nid ≠ card.categoryId →
          mig.syncStatus = some SyncStatus.pending ∧ mig.updatedAt = some now) := by
      refine ⟨_, _, rfl, ?_, ?_⟩
      · by_cases hd : (((if isUuid card.id then (card.id, k, false)
            else (freshId k, k + 1, true)) : String × Nat × Bool).2.2
            || ((mapGet mp card.categoryId).getD card.categoryId != card.categoryId))
            = true
        · rw [if_pos hd]
        · rw [if_neg hd]
          have hb : ((mapGet mp card.categoryId).getD card.categoryId
              != card.categoryId) = false := by
            rcases Bool.or_eq_false_iff.mp (Bool.eq_false_iff.mpr hd) with ⟨_, hb⟩
            exact hb
          have hc : (mapGet mp card.categoryId).getD card.categoryId
              = card.categoryId := by
            simpa using hb
          rw [hc]
      · intro nid hnid hne
        have hnext : (mapGet mp card.categoryId).getD card.categoryId = nid := by
          rw [hnid]
          rfl
        have hd : (((if isUuid card.id then (card.id, k, false)
            else (freshId k, k + 1, true)) : String × Nat × Bool).2.2
            || ((mapGet mp card.categoryId).getD card.categoryId != card.categoryId))
            = true := by
          rw [hnext]
          simp [hne]
        rw [if_pos hd]
        exact ⟨rfl, rfl⟩
    obtain ⟨mig, k1, heq, hcat, hpend⟩ := hred
    rw [heq]
    obtain ⟨ihlen, ihpt⟩ := ih k1
    refine ⟨by simpa using ihlen, ?_⟩
    intro i cdi hi
    cases i with
    | zero =>
      simp only [List.get?_cons_zero] at hi ⊢
      cases Option.some.inj hi
      exact ⟨mig, rfl, hcat, hpend⟩
    | succ i' =>
      simp only [List.get?_cons_succ] at hi ⊢
      exact ihpt i' cdi hi

/-- C7: when some stored category id is not a well-formed UUID and the id
generator yields UUIDs, getAllCategories keeps every valid-id category
as-is, regenerates the id of every legacy category (marking it pending with
updatedAt = now), leaves every category id a valid UUID, persists the
migrated categories, persists a card list of the same length in which every
flashcard's categoryId equals the id of its (possibly re-identified) owning
category — pending whenever the owner was re-identified — and raises the
one-shot migration flag, which consumeMigrationNotice reports exactly once. -/
theorem getAllCategories_migration (env : StoreEnv) (st : StoreState)
    (cats : List Category) (cards : List Flashcard)
    (hcats : st.categories = some cats) (hcards : st.cards = some cards)
    (hleg : hasLegacyCategoryIds cats = true)
    (hnodup : (idsOf cats).Nodup)
    (hfresh : ∀ k, isUuid (env.freshId k) = true) :
    (getAllCategories env st).1.length = cats.length ∧
    (∀ c ∈ (getAllCategories env st).1, isUuid c.id = true) ∧
    (∀ j cj, cats.get? j = some cj → isUuid cj.id = true →
      (getAllCategories env st).1.get? j = some cj) ∧
    (∀ j cj, cats.get? j = some cj → isUuid cj.id = false →
      ∃ c', (getAllCategories env st).1.get? j = some c' ∧ isUuid c'.id = true ∧
        c'.name = cj.name ∧ c'.updatedAt = some env.now ∧
        c'.syncStatus = some SyncStatus.pending) ∧
    ((getAllCategories env st).2.categories = some (getAllCategories env st).1) ∧
    (∃ cards', (getAllCategories env st).2.cards = some cards' ∧
      cards'.length = cards.length ∧
      ∀ i cdi j cj, cards.get? i = some cdi → cats.get? j = some cj →
        cdi.categoryId = cj.id →
        ∃ out c', cards'.get? i = some out ∧
          (getAllCategories env st).1.get? j = some c' ∧
          out.categoryId = c'.id ∧
          (isUuid cj.id = false → out.syncStatus = some SyncStatus.pending)) ∧
    ((consumeMigrationNotice (getAllCategories env st).2).1 = true ∧
      (consumeMigrationNotice (consumeMigrationNotice (getAllCategories env st).2).2).1
        = false) := by
  have hread : getAllCards st = (cards, st) := by
    unfold getAllCards
    rw [hcards]
  have hred : getAllCategories env st =
      ((migrateCategoriesGo env.freshId env.now 0 cats).1,
       { st with
          categories := some (migrateCategoriesGo env.freshId env.now 0 cats).1,
          cards :=
            if (cards.any (fun card => ! isUuid card.id ||
                (mapGet (migrateCategoriesGo env.freshId env.now 0 cats).2.1
                  card.categoryId).isSome)) = true then
              some (migrateCardsGo env.freshId env.now
                (migrateCategoriesGo env.freshId env.now 0 cats).2.1
                (migrateCategoriesGo env.freshId env.now 0 cats).2.2 cards).1
            else st.cards,
          hasUnseenMigration := true }) := by
    unfold getAllCategories
    rw [hcats]
    dsimp only
    rw [if_pos hleg, hread]
    dsimp only
    by_cases hC : (cards.any (fun card => ! isUuid card.id ||
        (mapGet (migrateCategoriesGo env.freshId env.now 0 cats).2.1
          card.categoryId).isSome)) = true
    · rw [if_pos hC, if_pos hC, if_pos hC]
    · rw [if_neg hC, if_neg hC]
  have hred1 : (getAllCategories env st).1 =
      (migrateCategoriesGo env.freshId env.now 0 cats).1 := by
    rw [hred]
  have hredCat : (getAllCategories env st).2.categories =
      some (migrateCategoriesGo env.freshId env.now 0 cats).1 := by
    rw [hred]
  have hredCards : (getAllCategories env st).2.cards =
      (if (cards.any (fun card => ! isUuid card.id ||
          (mapGet (migrateCategoriesGo env.freshId env.now 0 cats).2.1
            card.categoryId).isSome)) = true then
        some (migrateCardsGo env.freshId env.now
          (migrateCategoriesGo env.freshId env.now 0 cats).2.1
          (migrateCategoriesGo env.freshId env.now 0 cats).2.2 cards).1
      else st.cards) := by
    rw [hred]
  have hredFlag : (getAllCategories env st).2.hasUnseenMigration = true := by
    rw [hred]
  obtain ⟨hAlen, hAuu, hAleg, hAmap⟩ :=
    migrateCategoriesGo_spec env.freshId env.now cats 0 hnodup
  obtain ⟨hBlen, hBpt⟩ := migrateCardsGo_spec env.freshId env.now
    (migrateCategoriesGo env.freshId env.now 0 cats).2.1 cards
    (migrateCategoriesGo env.freshId env.now 0 cats).2.2
  refine ⟨?_, ?_, ?_, ?_, ?_, ?_, ?_, ?_⟩
  · rw [hred1]
    exact hAlen
  · intro c hc
    rw [hred1] at hc
    obtain ⟨n, hn⟩ := List.mem_iff_get?.mp hc
    have hlt : n < cats.length := by
      obtain ⟨hlt2, _⟩ := List.get?_eq_some.mp hn
      omega
    have hcj : cats.get? n = some (cats.get ⟨n, hlt⟩) := List.get?_eq_get hlt
    by_cases hu : isUuid (cats.get ⟨n, hlt⟩).id = true
    · have hkeep := hAuu n _ hcj hu
      rw [hkeep] at hn
      cases Option.some.inj hn
      exact hu
    · have hf : isUuid (cats.get ⟨n, hlt⟩).id = false := by simpa using hu
      obtain ⟨jj, _, _, hout⟩ := hAleg n _ hcj hf
      rw [hout] at hn
      cases Option.some.inj hn
      exact hfresh jj
  · intro j cj hj hju
    rw [hred1]
    exact hAuu j cj hj hju
  · intro j cj hj hjl
    rw [hred1]
    obtain ⟨jj, _, _, hout⟩ := hAleg j cj hj hjl
    exact ⟨_, hout, hfresh jj, rfl, rfl, rfl⟩
  · rw [hredCat, hred1]
  · rw [hredCards]
    by_cases hLC : (cards.any (fun card => ! isUuid card.id ||
        (mapGet (migrateCategoriesGo env.freshId env.now 0 cats).2.1
          card.categoryId).isSome)) = true
    · refine ⟨_, by rw [if_pos hLC], hBlen, ?_⟩
      intro i cdi j cj hi hj hmatch
      obtain ⟨out, hout, hocat, hopend⟩ := hBpt i cdi hi
      by_cases hu : isUuid cj.id = true
      · have hnone : mapGet (migrateCategoriesGo env.freshId env.now 0 cats).2.1
            cdi.categoryId = none := by
          cases hmg : mapGet (migrateCategoriesGo env.freshId env.now 0 cats).2.1
            cdi.categoryId with
          | none => rfl
          | some nid =>
            obtain ⟨c, hcmem, hcid, hcleg⟩ := hAmap _ _ hmg
            have hcjmem : cj ∈ cats := List.get?_mem hj
            have hceq : c = cj :=
              category_eq_of_id_eq hnodup hcmem hcjmem (by rw [hcid, hmatch])
            rw [hceq] at hcleg
            rw [hcleg] at hu
            cases hu
        have hretj := hAuu j cj hj hu
        refine ⟨out, cj, hout, by rw [hred1]; exact hretj, ?_, ?_⟩
        · rw [hocat, hnone]
          exact hmatch
        · intro hlegcj
          rw [hlegcj] at hu
          cases hu
      · have hf : isUuid cj.id = false := by simpa using hu
        obtain ⟨jj, hjjle, hmg, hretj⟩ := hAleg j cj hj hf
        have hmg2 : mapGet (migrateCategoriesGo env.freshId env.now 0 cats).2.1
            cdi.categoryId = some (env.freshId jj) := by
          rw [hmatch]
          exact hmg
        refine ⟨out, _, hout, by rw [hred1]; exact hretj, ?_, fun _ => ?_⟩
        · rw [hocat, hmg2]
          rfl
        · have hne : env.freshId jj ≠ cdi.categoryId := by
            intro he
            have h1 := hfresh jj
            rw [he, hmatch, hf] at h1
            cases h1
          exact (hopend _ hmg2 hne).1
    · refine ⟨cards, by rw [if_neg hLC]; exact hcards, rfl, ?_⟩
      have hLCf : (cards.any (fun card => ! isUuid card.id ||
          (mapGet (migrateCategoriesGo env.freshId env.now 0 cats).2.1
            card.categoryId).isSome)) = false := by
        simpa using hLC
      intro i cdi j cj hi hj hmatch
      have hcdimem : cdi ∈ cards := List.get?_mem hi
      have hnone : mapGet (migrateCategoriesGo env.freshId env.now 0 cats).2.1
          cdi.categoryId = none := by
        have hp := List.any_eq_false.mp hLCf cdi hcdimem
        cases hmg : mapGet (migrateCategoriesGo env.freshId env.now 0 cats).2.1
          cdi.categoryId with
        | none => rfl
        | some nid =>
          rw [hmg] at hp
          simp at hp
      have hu : isUuid cj.id = true := by
        by_cases h : isUuid cj.id = true
        · exact h
        · obtain ⟨jj, _, hmg, _⟩ := hAleg j cj hj (by simpa using h)
          rw [hmatch] at hnone
          rw [hnone] at hmg
          cases hmg
      have hretj := hAuu j cj hj hu
      refine ⟨cdi, cj, hi, by rw [hred1]; exact hretj, hmatch, ?_⟩
      intro hlegcj
      rw [hlegcj] at hu
      cases hu
  · unfold consumeMigrationNotice
    rw [if_pos hredFlag]
  · unfold consumeMigrationNotice
    rw [if_pos hredFlag]
    dsimp only
    rw [if_neg (by simp : ¬ (false = true))]

/-- Witness for C7: a single legacy category (id legacy-1) with a flashcard
referencing it; after the read the category id is a fresh UUID, the card
points at it and is pending, and the migration notice fires exactly once. -/
theorem getAllCategories_migration_witness :
    ∃ c', (getAllCategories migEnv migState).1.get? 0 = some c' ∧
      isUuid c'.id = true ∧ c'.syncStatus = some SyncStatus.pending ∧
      (∃ cards' out, (getAllCategories migEnv migState).2.cards = some cards' ∧
        cards'.get? 0 = some out ∧ out.categoryId = c'.id ∧
        out.syncStatus = some SyncStatus.pending) ∧
      (consumeMigrationNotice (getAllCategories migEnv migState).2).1 = true ∧
      (consumeMigrationNotice
        (consumeMigrationNotice (getAllCategories migEnv migState).2).2).1 = false := by
  have h := getAllCategories_migration migEnv migState [catLegacy] [cardLegacyRef]
    rfl rfl (by decide) (by decide)
    (fun k => by
      show isUuid "123e4567-e89b-12d3-a456-426614174000" = true
      decide)
  obtain ⟨_, _, _, hlegacy, _, ⟨cards', hcards', _, hpt⟩, hflag1, hflag2⟩ := h
  obtain ⟨c', hc', huu, _, _, hst⟩ := hlegacy 0 catLegacy (by decide) (by decide)
  obtain ⟨out, c'', hout, hret, hoc, hop⟩ :=
    hpt 0 cardLegacyRef 0 catLegacy (by decide) (by decide) (by decide)
  have hceq : c'' = c' := Option.some.inj (hret.symm.trans hc')
  refine ⟨c', hc', huu, hst, ⟨cards', out, hcards', hout, ?_, hop (by decide)⟩,
    hflag1, hflag2⟩
  rw [hoc, hceq]

theorem mapGet_enumFold_none (ps : List (Nat × String)) (m : List (String × Nat))
    (key : String) :
    mapGet (ps.foldl (fun m p => mapSet m p.2 p.1) m) key = none ↔
      mapGet m key = none ∧ key ∉ ps.map Prod.snd := by
  induction ps generalizing m with
  | nil => simp
  | cons p rest ih =>
    obtain ⟨i, id0⟩ := p
    rw [List.foldl_cons, ih]
    constructor
    · rintro ⟨hm, hrest⟩
      by_cases hk : id0 = key
      · subst hk
        rw [mapGet_mapSet_self] at hm
        cases hm
      · rw [mapGet_mapSet_ne m _ _ _ hk] at hm
        simp only [List.map_cons, List.mem_cons, not_or]
        exact ⟨hm, fun h => hk h.symm, hrest⟩
    · rintro ⟨hm, hnot⟩
      simp only [List.map_cons, List.mem_cons, not_or] at hnot
      refine ⟨?_, hnot.2⟩
      rw [mapGet_mapSet_ne m _ _ _ (fun h => hnot.1 h.symm)]
      exact hm

/-- C10: reorderCategories leaves every category whose id is not in the
given sequence completely unchanged (the same record, with its order,
updatedAt and syncStatus fields, is still present, and nothing else gains
its id), and the call does not modify any flashcard. -/
theorem reorderCategories_frame (categoryIds : List String) (now : Nat)
    (st : FacadeState) :
    (reorderCategoriesStep categoryIds now st).cards = st.cards ∧
    (reorderCategoriesStep categoryIds now st).categories.length
        = st.categories.length ∧
    ∀ c : Category, c.id ∉ categoryIds →
      (c ∈ (reorderCategoriesStep categoryIds now st).categories ↔
        c ∈ st.categories) := by
  have hperm : ∀ l : List Category, List.Perm (sortCategories l) l :=
    fun l => List.perm_insertionSort categoryBefore l
  have hnone : ∀ key, key ∉ categoryIds →
      mapGet (categoryIds.enum.foldl (fun m p => mapSet m p.2 p.1)
        ([] : List (String × Nat))) key = none := by
    intro key hk
    rw [mapGet_enumFold_none]
    refine ⟨rfl, ?_⟩
    rw [List.enum_map_snd]
    exact hk
  have hsome : ∀ key i, mapGet (categoryIds.enum.foldl (fun m p => mapSet m p.2 p.1)
      ([] : List (String × Nat))) key = some i → key ∈ categoryIds := by
    intro key i hkey
    by_contra hk
    rw [hnone key hk] at hkey
    cases hkey
  refine ⟨rfl, ?_, ?_⟩
  · have h1 := (hperm (st.categories.map fun cat =>
      match mapGet (categoryIds.enum.foldl (fun m p => mapSet m p.2 p.1) []) cat.id with
      | none => cat
      | some nextOrder =>
        { cat with
            order := some nextOrder, updatedAt := some now,
            syncStatus := some SyncStatus.pending })).length_eq
    simpa [reorderCategoriesStep, reorderCategories] using h1
  · intro c hc
    have hmem : c ∈ (reorderCategoriesStep categoryIds now st).categories ↔
        c ∈ st.categories.map (fun cat =>
          match mapGet (categoryIds.enum.foldl (fun m p => mapSet m p.2 p.1) [])
            cat.id with
          | none => cat
          | some nextOrder =>
            { cat with
                order := some nextOrder, updatedAt := some now,
                syncStatus := some SyncStatus.pending }) := by
      exact (hperm _).mem_iff
    rw [hmem]
    constructor
    · intro hcm
      obtain ⟨x, hx, hfx⟩ := List.mem_map.mp hcm
      cases hmg : mapGet (categoryIds.enum.foldl (fun m p => mapSet m p.2 p.1) [])
        x.id with
      | none =>
        rw [hmg] at hfx
        simp only at hfx
        rw [← hfx]
        exact hx
      | some i =>
        rw [hmg] at hfx
        simp only at hfx
        have hid : c.id = x.id := by rw [← hfx]
        rw [hid] at hc
        exact absurd (hsome x.id i hmg) hc
    · intro hcm
      refine List.mem_map.mpr ⟨c, hcm, ?_⟩
      rw [hnone c.id hc]

/-- Witness for C10: reordering with the sequence containing only id b
leaves the category with id a unchanged in the list and the cards intact. -/
theorem reorderCategories_frame_witness :
    (reorderCategoriesStep ["b"] 50 facadeSample).cards = facadeSample.cards ∧
    (catLocalA ∈ (reorderCategoriesStep ["b"] 50 facadeSample).categories ↔
      catLocalA ∈ facadeSample.categories) := by
  have h := reorderCategories_frame ["b"] 50 facadeSample
  exact ⟨h.1, h.2.2 catLocalA (by decide)⟩

end KidsCard
